import Mathlib

/-!
Shallow embedding of the lab-report OCR pipeline (batch_processor.py, main.py).

Strings are modelled as `List Char` over the ASCII fragment that the parser's
regular expression and `float` conversion actually touch.  The regex

  (.*?)[\s:]+([\d.]+)[\s]*([a-zA-Z%/]+)?[\s]*[\(]?([\d.]+-[\d.]+)?[\)]?

is applied with `re.match` (anchored prefix match).  Because every piece after
the value group is optional or a star, the backtracking search reduces to:
the lazy name group ends at the first `[\s:]`-run whose following character is
a digit or dot; every later group is a greedy character-class run.  The
definitions below implement exactly that normal form.
-/

/-- Character class of Python `str.strip()` / `\s` whitespace
(space, tab, newline, carriage return, vertical tab, form feed). -/
def isPySpace (c : Char) : Bool :=
  c.toNat = 32 || c.toNat = 9 || c.toNat = 10 || c.toNat = 13 || c.toNat = 11 || c.toNat = 12

/-- The regex class between name and value (whitespace or a colon), code 58 is a colon. -/
def isSepChar (c : Char) : Bool :=
  isPySpace c || c.toNat = 58

/-- ASCII decimal digit, the regex class backslash-d restricted to ASCII. -/
def isDigitChar (c : Char) : Bool :=
  48 ≤ c.toNat && c.toNat ≤ 57

/-- The regex value class: a digit or a dot (code 46). -/
def isDigitDot (c : Char) : Bool :=
  isDigitChar c || c.toNat = 46

/-- The regex unit class: an ASCII letter, a percent sign (37) or a slash (47). -/
def isUnitChar (c : Char) : Bool :=
  (65 ≤ c.toNat && c.toNat ≤ 90) || (97 ≤ c.toNat && c.toNat ≤ 122) || c.toNat = 37 || c.toNat = 47

/-- Python `str.strip()`: drop whitespace at both ends. -/
def pyStrip (l : List Char) : List Char :=
  ((l.dropWhile isPySpace).reverse.dropWhile isPySpace).reverse

/-- Python `str.upper()` on the ASCII fragment; `Char.toUpper` uppercases
exactly the ASCII letters, as Python does on ASCII input. -/
def pyUpper (l : List Char) : List Char :=
  l.map Char.toUpper

/-- Line break characters handled by Python `str.splitlines` that can occur in
OCR output: newline, carriage return, vertical tab, form feed. -/
def isLineBreak (c : Char) : Bool :=
  c.toNat = 10 || c.toNat = 13 || c.toNat = 11 || c.toNat = 12

/-- Helper for `splitlines`: accumulates the current line (reversed). -/
def splitlinesAux : List Char → List Char → List (List Char)
  | cur, [] => if cur = [] then [] else [cur.reverse]
  | cur, '\r' :: '\n' :: rest => cur.reverse :: splitlinesAux [] rest
  | cur, c :: rest =>
    if isLineBreak c then cur.reverse :: splitlinesAux [] rest
    else splitlinesAux (c :: cur) rest

/-- Python `text.splitlines()` (line 86 of batch_processor.py). -/
def splitlines (l : List Char) : List (List Char) :=
  splitlinesAux [] l

/-- True when the maximal `[\s:]`-run at the front of `cs` is followed by a
digit-or-dot character, i.e. the regex name group may stop just before `cs`'s
predecessor run. -/
def sepThenDigit (cs : List Char) : Bool :=
  match cs.dropWhile isSepChar with
  | d :: _ => isDigitDot d
  | [] => false

/-- The lazy name group of the regex: returns the name (everything before the
first `[\s:]+` run that is followed by a digit or dot) and the remainder of the
line starting at that digit-or-dot character; `none` when no such run exists,
i.e. when `re.match` fails on the line. -/
def splitNameRest : List Char → Option (List Char × List Char)
  | [] => none
  | c :: cs =>
    if isSepChar c && sepThenDigit cs then some ([], cs.dropWhile isSepChar)
    else (splitNameRest cs).map (fun p => (c :: p.1, p.2))

/-- Remainder after the greedy value run and the following `[\s]*`. -/
def restAfterValue (rest : List Char) : List Char :=
  (rest.dropWhile isDigitDot).dropWhile isPySpace

/-- The optional greedy unit group `([a-zA-Z%/]+)?`. -/
def unitGroup (t : List Char) : Option (List Char) :=
  match t.takeWhile isUnitChar with
  | [] => none
  | u => some u

/-- Remainder after the unit group and the following `[\s]*`. -/
def afterUnit (t : List Char) : List Char :=
  (t.dropWhile isUnitChar).dropWhile isPySpace

/-- The optional `[\(]?`: consume a single opening parenthesis when present. -/
def afterParen : List Char → List Char
  | '(' :: t => t
  | t => t

/-- The optional range group `([\d.]+-[\d.]+)?`: both halves are greedy
digit-or-dot runs around a hyphen. -/
def rangeGroup (t : List Char) : Option (List Char) :=
  match t.takeWhile isDigitDot, t.dropWhile isDigitDot with
  | d :: ds, c :: u =>
    if c.toNat = 45 then
      match u.takeWhile isDigitDot with
      | [] => none
      | e :: es => some ((d :: ds) ++ '-' :: e :: es)
    else none
  | _, _ => none

/-- The four captured groups of the regex on line 90 of batch_processor.py. -/
structure MatchGroups where
  name : List Char
  value : List Char
  unitTok : Option (List Char)
  rangeTok : Option (List Char)
deriving Repr, DecidableEq

/-- Model of `re.match(pattern, line)` for the pattern on line 90 of
batch_processor.py: `none` when the match fails, otherwise the four groups. -/
def reMatch (s : List Char) : Option MatchGroups :=
  match splitNameRest s with
  | none => none
  | some (n, rest) =>
    some { name := n
           value := rest.takeWhile isDigitDot
           unitTok := unitGroup (restAfterValue rest)
           rangeTok := rangeGroup (afterParen (afterUnit (restAfterValue rest))) }

/-- Numeric value of a digit string (most significant first). -/
def digitsToNat (l : List Char) : Nat :=
  l.foldl (fun a c => a * 10 + (c.toNat - 48)) 0

/-- Exact value of a non-negative decimal token, kept as an integer numerator
over a power-of-ten denominator so that every computation stays in `Nat`. -/
structure Dec where
  num : Nat
  den : Nat
deriving Repr, DecidableEq

/-- The rational number denoted by a `Dec`. -/
def Dec.toRat (a : Dec) : ℚ :=
  (a.num : ℚ) / (a.den : ℚ)

/-- Numeric order on decimal tokens by cross multiplication; for positive
denominators this is the order of the denoted rationals. -/
def Dec.le (a b : Dec) : Bool :=
  a.num * b.den ≤ b.num * a.den

/-- Strict numeric order on decimal tokens by cross multiplication. -/
def Dec.lt (a b : Dec) : Bool :=
  a.num * b.den < b.num * a.den

/-- Exact value of a decimal string made of digits and at most one dot:
integer part followed by an optional fractional part. -/
def decimalVal (s : List Char) : Dec :=
  match s.dropWhile isDigitChar with
  | _ :: frac =>
    { num := digitsToNat (s.takeWhile isDigitChar) * 10 ^ frac.length + digitsToNat frac
      den := 10 ^ frac.length }
  | [] => { num := digitsToNat s, den := 1 }

/-- Model of Python `float(s)` on the digit-and-dot tokens produced by the
regex, valued in exact decimals: it succeeds precisely when the token is
non-empty, uses only digits and dots, has at most one dot and at least one
digit; otherwise `float` raises `ValueError`. -/
def parseDecimal (s : List Char) : Option Dec :=
  if s ≠ [] ∧ s.all isDigitDot ∧ s.countP (fun c => c.toNat = 46) ≤ 1 ∧ s.any isDigitChar then
    some (decimalVal s)
  else none

/-- Python `s.split('-')` (code 45 is the hyphen). -/
def splitOnHyphen : List Char → List (List Char)
  | [] => [[]]
  | c :: t =>
    if c.toNat = 45 then [] :: splitOnHyphen t
    else
      match splitOnHyphen t with
      | [] => [[c]]
      | h :: r => (c :: h) :: r

/-- Lines 116-121 of batch_processor.py: split the reference range on the
hyphen, convert both halves with `float`, and flag the value when it lies
strictly outside the inclusive bounds; any `ValueError` (wrong number of
parts or an unparsable half) leaves the flag `False`. -/
def rangeCheck (v : Dec) (rr : List Char) : Bool :=
  match splitOnHyphen rr with
  | [a, b] =>
    match parseDecimal a, parseDecimal b with
    | some low, some high => !(Dec.le low v && Dec.le v high)
    | _, _ => false
  | _ => false

/-- The record dictionary appended on lines 123-129 of batch_processor.py. -/
structure LabTestRecord where
  test_name : List Char
  test_value : List Char
  bio_reference_range : List Char
  test_unit : List Char
  lab_test_out_of_range : Bool
deriving Repr, DecidableEq

/-- Cleanup of an optional captured group (lines 103-104): strip when the
group matched, empty string when it is `None`. -/
def cleanOpt : Option (List Char) → List Char
  | some u => pyStrip u
  | none => []

/-- Lines 100-133 of batch_processor.py, after a successful regex match:
clean the groups, drop the line if name or value is empty, convert the value
with `float` (skip on `ValueError`), evaluate the range flag, and emit the
record. -/
def buildRecord (g : MatchGroups) : List LabTestRecord :=
  if pyUpper (pyStrip g.name) = [] ∨ pyStrip g.value = [] then []
  else
    match parseDecimal (pyStrip g.value) with
    | none => []
    | some v =>
      [{ test_name := pyUpper (pyStrip g.name)
         test_value := pyStrip g.value
         bio_reference_range := cleanOpt g.rangeTok
         test_unit := cleanOpt g.unitTok
         lab_test_out_of_range :=
           if cleanOpt g.rangeTok = [] then false else rangeCheck v (cleanOpt g.rangeTok) }]

/-- The per-line body of the loop on lines 92-133: skip blank lines, match the
stripped line against the pattern, and emit the records of `buildRecord`. -/
def parseLine (line : List Char) : List LabTestRecord :=
  if pyStrip line = [] then []
  else
    match reMatch (pyStrip line) with
    | none => []
    | some g => buildRecord g

/-- `parse_lab_tests` (lines 76-136 of batch_processor.py): split into lines,
process each line independently, concatenate in line order. -/
def parse_lab_tests (text : List Char) : List LabTestRecord :=
  (splitlines text).flatMap parseLine

/-- `format_output` (lines 24-37 of batch_processor.py): rebuild each record
from its five fields, in order. -/
def format_output (parsed_data : List LabTestRecord) : List LabTestRecord :=
  parsed_data.map fun entry =>
    { test_name := entry.test_name
      test_value := entry.test_value
      bio_reference_range := entry.bio_reference_range
      test_unit := entry.test_unit
      lab_test_out_of_range := entry.lab_test_out_of_range }

/-- Outcomes of the external library calls made by `extract_text_from_image`
(lines 39-74 of batch_processor.py).  cv2 and pytesseract are external
collaborators, so each call is an oracle: `Except Unit` marks a call that
raises, `imread` additionally may return `None` (modelled as `Option`).
Image handles are opaque naturals. -/
structure OcrEnv where
  imread : Except Unit (Option Nat)
  cvtColor : Nat → Except Unit Nat
  threshold : Nat → Except Unit Nat
  medianBlur : Nat → Except Unit Nat
  image_to_string : Nat → Except Unit (List Char)

/-- `extract_text_from_image` (lines 39-74 of batch_processor.py): the whole
body is wrapped in try/except, a `None` image returns the empty string, and
any raising library call is caught and also yields the empty string. -/
def extract_text_from_image (env : OcrEnv) : List Char :=
  match env.imread with
  | .error _ => []
  | .ok none => []
  | .ok (some image) =>
    match env.cvtColor image with
    | .error _ => []
    | .ok gray =>
      match env.threshold gray with
      | .error _ => []
      | .ok binary =>
        match env.medianBlur binary with
        | .error _ => []
        | .ok denoised =>
          match env.image_to_string denoised with
          | .error _ => []
          | .ok text => text

/-- Outcome of copying the upload into the temporary file (lines 118-119 of
main.py): `ok`, or an exception raised by `shutil.copyfileobj` after
`open(file_path, "wb")` has already created the file. -/
inductive UploadCopy where
  | ok
  | raises
deriving Repr, DecidableEq

/-- Response of the service handler: `is_success` plus the formatted data
(empty in the structured 500 response of lines 141-144 of main.py). -/
structure ServiceResponse where
  is_success : Bool
  data : List LabTestRecord
deriving Repr, DecidableEq

/-- `get_lab_tests` (lines 100-144 of main.py), with the filesystem modelled
as the list of paths present in the upload directory.  On `copy = ok` the
handler writes the temporary file, runs extraction (total), parsing and
formatting, then calls `os.remove` and returns success.  When the copy raises,
control jumps to the except branch, which returns the structured failure
response without removing the file that `open` created. -/
def get_lab_tests (fs : List (List Char)) (path : List Char) (copy : UploadCopy)
    (ocrText : List Char) : ServiceResponse × List (List Char) :=
  match copy with
  | .raises => ({ is_success := false, data := [] }, fs ++ [path])
  | .ok =>
    ({ is_success := true, data := format_output (parse_lab_tests ocrText) },
      (fs ++ [path]).filter (fun q => q ≠ path))

/-! ### Character-level helper lemmas -/

theorem char_toNat_ofNat (n : Nat) (hv : n.isValidChar) : (Char.ofNat n).toNat = n := by
  simp [Char.ofNat, hv, Char.ofNatAux, Char.toNat, UInt32.toNat, BitVec.toNat_ofNatLt]

theorem toUpper_eq_of_lower {c : Char} (h1 : 97 ≤ c.toNat) (h2 : c.toNat ≤ 122) :
    Char.toUpper c = Char.ofNat (c.toNat - 32) := by
  simp only [Char.toUpper]
  rw [if_pos ⟨h1, h2⟩]

theorem toUpper_eq_of_not_lower {c : Char} (h : ¬(97 ≤ c.toNat ∧ c.toNat ≤ 122)) :
    Char.toUpper c = c := by
  simp only [Char.toUpper]
  rw [if_neg h]

theorem toUpper_toNat_of_lower {c : Char} (h1 : 97 ≤ c.toNat) (h2 : c.toNat ≤ 122) :
    (Char.toUpper c).toNat = c.toNat - 32 := by
  rw [toUpper_eq_of_lower h1 h2, char_toNat_ofNat (c.toNat - 32) (Or.inl (by omega))]

theorem toUpper_toUpper (c : Char) : Char.toUpper (Char.toUpper c) = Char.toUpper c := by
  by_cases h : 97 ≤ c.toNat ∧ c.toNat ≤ 122
  · have ht : (Char.toUpper c).toNat = c.toNat - 32 := toUpper_toNat_of_lower h.1 h.2
    exact toUpper_eq_of_not_lower (by omega)
  · rw [toUpper_eq_of_not_lower h, toUpper_eq_of_not_lower h]

theorem isPySpace_toUpper (c : Char) : isPySpace (Char.toUpper c) = isPySpace c := by
  by_cases h : 97 ≤ c.toNat ∧ c.toNat ≤ 122
  · have ht : (Char.toUpper c).toNat = c.toNat - 32 := toUpper_toNat_of_lower h.1 h.2
    rw [Bool.eq_iff_iff]
    simp only [isPySpace, Bool.or_eq_true, decide_eq_true_eq, ht]
    omega
  · rw [toUpper_eq_of_not_lower h]

theorem isPySpace_eq_false_of_digitDot {c : Char} (h : isDigitDot c = true) :
    isPySpace c = false := by
  simp only [isDigitDot, isDigitChar, Bool.or_eq_true, Bool.and_eq_true, decide_eq_true_eq] at h
  simp only [isPySpace, Bool.or_eq_true, decide_eq_true_eq, Bool.not_eq_true,
    Bool.eq_false_iff, ne_eq]
  omega

theorem isPySpace_eq_false_of_hyphen {c : Char} (h : c.toNat = 45) : isPySpace c = false := by
  simp only [isPySpace, Bool.or_eq_true, decide_eq_true_eq, Bool.eq_false_iff, ne_eq]
  omega

/-! ### Strip and uppercase helper lemmas -/

theorem dropWhile_dropWhile {α : Type} (p : α → Bool) (l : List α) :
    (l.dropWhile p).dropWhile p = l.dropWhile p := by
  induction l with
  | nil => rfl
  | cons c cs ih =>
    by_cases h : p c = true
    · simp [List.dropWhile_cons, h, ih]
    · simp [List.dropWhile_cons, h]

theorem dropWhile_eq_self_append {α : Type} {p : α → Bool} {m t l : List α}
    (hl : l.dropWhile p = l) (hml : m ++ t = l) : m.dropWhile p = m := by
  cases m with
  | nil => rfl
  | cons c cs =>
    have hlc : l = c :: (cs ++ t) := by rw [hml.symm]; rfl
    by_cases h : p c = true
    · exfalso
      rw [hlc, List.dropWhile_cons, if_pos h] at hl
      have hlen : ((cs ++ t).dropWhile p).length ≤ (cs ++ t).length :=
        List.Sublist.length_le (List.dropWhile_sublist p)
      rw [hl] at hlen
      simp at hlen
    · rw [List.dropWhile_cons, if_neg h]

theorem dropWhile_eq_self_of_all {α : Type} {p : α → Bool} {l : List α}
    (h : ∀ c ∈ l, p c = false) : l.dropWhile p = l := by
  cases l with
  | nil => rfl
  | cons c cs =>
    rw [List.dropWhile_cons, if_neg]
    simp [h c (List.mem_cons_self c cs)]

theorem pyStrip_dropWhile (l : List Char) : (pyStrip l).dropWhile isPySpace = pyStrip l := by
  have hEq : ((l.dropWhile isPySpace).reverse.dropWhile isPySpace).reverse ++
      ((l.dropWhile isPySpace).reverse.takeWhile isPySpace).reverse = l.dropWhile isPySpace := by
    rw [← List.reverse_append, List.takeWhile_append_dropWhile, List.reverse_reverse]
  exact dropWhile_eq_self_append (dropWhile_dropWhile isPySpace l) hEq

theorem pyStrip_reverse_dropWhile (l : List Char) :
    (pyStrip l).reverse.dropWhile isPySpace = (pyStrip l).reverse := by
  unfold pyStrip
  rw [List.reverse_reverse]
  exact dropWhile_dropWhile isPySpace _

theorem pyStrip_pyStrip (l : List Char) : pyStrip (pyStrip l) = pyStrip l := by
  conv_lhs => rw [pyStrip]
  rw [pyStrip_dropWhile, pyStrip_reverse_dropWhile, List.reverse_reverse]

theorem pyStrip_pyUpper (l : List Char) : pyStrip (pyUpper l) = pyUpper (pyStrip l) := by
  have hcomp : (isPySpace ∘ Char.toUpper) = isPySpace := by
    funext c
    exact isPySpace_toUpper c
  unfold pyStrip pyUpper
  rw [List.dropWhile_map, hcomp, ← List.map_reverse, List.dropWhile_map, hcomp,
    ← List.map_reverse]

theorem pyUpper_pyUpper (l : List Char) : pyUpper (pyUpper l) = pyUpper l := by
  unfold pyUpper
  rw [List.map_map]
  exact List.map_congr_left (fun c _ => toUpper_toUpper c)

theorem pyStrip_eq_self_of_no_space {l : List Char} (h : ∀ c ∈ l, isPySpace c = false) :
    pyStrip l = l := by
  unfold pyStrip
  rw [dropWhile_eq_self_of_all h, dropWhile_eq_self_of_all, List.reverse_reverse]
  intro c hc
  exact h c (List.mem_reverse.mp hc)

/-! ### Inversion lemmas for the regex model -/

theorem splitNameRest_some {l : List Char} :
    ∀ {n rest : List Char}, splitNameRest l = some (n, rest) →
      ∃ d ds, rest = d :: ds ∧ isDigitDot d = true := by
  induction l with
  | nil =>
    intro n rest h
    simp [splitNameRest] at h
  | cons c cs ih =>
    intro n rest h
    rw [splitNameRest] at h
    by_cases hc : (isSepChar c && sepThenDigit cs) = true
    · rw [if_pos hc] at h
      injection h with h
      have hrest : rest = cs.dropWhile isSepChar := (congrArg Prod.snd h).symm
      have hstd : sepThenDigit cs = true := (Bool.and_eq_true _ _).mp hc |>.2
      rw [sepThenDigit] at hstd
      rcases hdw : cs.dropWhile isSepChar with _ | ⟨d, ds⟩
      · rw [hdw] at hstd
        cases hstd
      · rw [hdw] at hstd
        exact ⟨d, ds, by rw [hrest, hdw], hstd⟩
    · rw [if_neg hc] at h
      rcases hr : splitNameRest cs with _ | p
      · rw [hr] at h
        cases h
      · rw [hr] at h
        injection h with h
        obtain ⟨d, ds, h1, h2⟩ := @ih p.1 p.2 (by rw [hr])
        refine ⟨d, ds, ?_, h2⟩
        rw [← h1]
        exact (congrArg Prod.snd h).symm

theorem reMatch_some {s : List Char} {g : MatchGroups} (h : reMatch s = some g) :
    ∃ rest, splitNameRest s = some (g.name, rest) ∧
      g.value = rest.takeWhile isDigitDot ∧
      g.unitTok = unitGroup (restAfterValue rest) ∧
      g.rangeTok = rangeGroup (afterParen (afterUnit (restAfterValue rest))) := by
  unfold reMatch at h
  rcases hs : splitNameRest s with _ | ⟨n, rest⟩
  · rw [hs] at h
    cases h
  · rw [hs] at h
    injection h with h
    subst h
    exact ⟨rest, rfl, rfl, rfl, rfl⟩

theorem reMatch_value {s : List Char} {g : MatchGroups} (h : reMatch s = some g) :
    g.value ≠ [] ∧ ∀ c ∈ g.value, isDigitDot c = true := by
  obtain ⟨rest, hsplit, hval, _, _⟩ := reMatch_some h
  obtain ⟨d, ds, hrest, hd⟩ := splitNameRest_some hsplit
  constructor
  · rw [hval, hrest, List.takeWhile_cons, if_pos hd]
    exact List.cons_ne_nil d _
  · intro c hc
    rw [hval] at hc
    exact List.mem_takeWhile_imp hc

theorem rangeGroup_some {t rr : List Char} (h : rangeGroup t = some rr) :
    ∃ a b, a ≠ [] ∧ b ≠ [] ∧ (∀ c ∈ a, isDigitDot c = true) ∧ (∀ c ∈ b, isDigitDot c = true) ∧
      rr = a ++ '-' :: b := by
  unfold rangeGroup at h
  split at h
  · rename_i d ds c u hteq hdeq
    split at h
    · rename_i hc
      split at h
      · cases h
      · rename_i e es heq2
        injection h with h
        refine ⟨d :: ds, e :: es, List.cons_ne_nil d ds, List.cons_ne_nil e es, ?_, ?_, h.symm⟩
        · intro x hx
          rw [← hteq] at hx
          exact List.mem_takeWhile_imp hx
        · intro x hx
          rw [← heq2] at hx
          exact List.mem_takeWhile_imp hx
    · cases h
  · cases h

/-! ### Inversion lemmas for record construction -/

theorem mem_buildRecord {g : MatchGroups} {r : LabTestRecord} (h : r ∈ buildRecord g) :
    ∃ v, parseDecimal (pyStrip g.value) = some v ∧
      r.test_name = pyUpper (pyStrip g.name) ∧
      r.test_value = pyStrip g.value ∧
      r.test_unit = cleanOpt g.unitTok ∧
      r.bio_reference_range = cleanOpt g.rangeTok ∧
      pyUpper (pyStrip g.name) ≠ [] ∧ pyStrip g.value ≠ [] ∧
      r.lab_test_out_of_range =
        (if cleanOpt g.rangeTok = [] then false else rangeCheck v (cleanOpt g.rangeTok)) := by
  unfold buildRecord at h
  split at h
  · cases h
  · rename_i hne
    push_neg at hne
    split at h
    · cases h
    · rename_i v hv
      have hr := List.mem_singleton.mp h
      subst hr
      exact ⟨v, hv, rfl, rfl, rfl, rfl, hne.1, hne.2, rfl⟩

theorem mem_parse {text : List Char} {r : LabTestRecord} (h : r ∈ parse_lab_tests text) :
    ∃ line ∈ splitlines text, ∃ g, reMatch (pyStrip line) = some g ∧ r ∈ buildRecord g := by
  rw [parse_lab_tests, List.mem_flatMap] at h
  obtain ⟨line, hline, hr⟩ := h
  unfold parseLine at hr
  by_cases hst : pyStrip line = []
  · rw [if_pos hst] at hr
    cases hr
  · rw [if_neg hst] at hr
    rcases hg : reMatch (pyStrip line) with _ | g <;> rw [hg] at hr
    · cases hr
    · exact ⟨line, hline, g, hg, hr⟩

/-! ### Numeric lemmas for exact decimals -/

theorem parseDecimal_den_pos {s : List Char} {d : Dec} (h : parseDecimal s = some d) :
    0 < d.den := by
  unfold parseDecimal at h
  split at h
  · injection h with h
    subst h
    unfold decimalVal
    split
    · exact pow_pos (by norm_num) _
    · norm_num
  · cases h

theorem Dec.le_iff_toRat {a b : Dec} (ha : 0 < a.den) (hb : 0 < b.den) :
    (Dec.le a b = true) ↔ a.toRat ≤ b.toRat := by
  unfold Dec.le Dec.toRat
  rw [decide_eq_true_eq]
  rw [div_le_div_iff₀ (by exact_mod_cast ha) (by exact_mod_cast hb)]
  constructor
  · intro hx
    exact_mod_cast hx
  · intro hx
    exact_mod_cast hx

theorem rangeCheck_eq {v low high : Dec} {rr a b : List Char}
    (hs : splitOnHyphen rr = [a, b]) (hl : parseDecimal a = some low)
    (hh : parseDecimal b = some high) :
    rangeCheck v rr = !(Dec.le low v && Dec.le v high) := by
  unfold rangeCheck
  rw [hs]
  simp only [hl, hh]

/-! ### Claim theorems -/

/-- C1: for every emitted record whose reference range splits on the hyphen
into two halves that both parse as decimal numbers, the out-of-range flag is
set exactly when the parsed value is strictly below the low bound or strictly
above the high bound; values equal to either bound are in range. -/
theorem claim_C1 (text : List Char) (r : LabTestRecord) (h : r ∈ parse_lab_tests text)
    (a b : List Char) (hs : splitOnHyphen r.bio_reference_range = [a, b])
    (low high v : Dec)
    (hl : parseDecimal a = some low) (hh : parseDecimal b = some high)
    (hv : parseDecimal r.test_value = some v) :
    (r.lab_test_out_of_range = true ↔
      (Dec.toRat v < Dec.toRat low ∨ Dec.toRat high < Dec.toRat v)) := by
  obtain ⟨line, hline, g, hg, hbmem⟩ := mem_parse h
  obtain ⟨v0, hv0, hname, hval, hunit, hrr, hn1, hn2, hflag⟩ := mem_buildRecord hbmem
  rw [hval, hv0] at hv
  injection hv with hv
  subst hv
  have hrrne : r.bio_reference_range ≠ [] := by
    intro he
    rw [he] at hs
    simp [splitOnHyphen] at hs
  rw [hflag, ← hrr, if_neg hrrne, rangeCheck_eq hs hl hh]
  have hL := Dec.le_iff_toRat (parseDecimal_den_pos hl) (parseDecimal_den_pos hv0)
  have hH := Dec.le_iff_toRat (parseDecimal_den_pos hv0) (parseDecimal_den_pos hh)
  have key : (!(Dec.le low v0 && Dec.le v0 high)) = true ↔
      ¬(Dec.le low v0 = true ∧ Dec.le v0 high = true) := by
    cases Dec.le low v0 <;> cases Dec.le v0 high <;> simp
  rw [key, hL, hH, not_and_or, not_le, not_le]

/-- C2: for every emitted record, if the reference range is empty, or either
hyphen-separated half of it fails to parse as a decimal number, then the
out-of-range flag is false; the parse failure never escapes as an exception
(the model is total, and the flag is simply left at its initial False). -/
theorem claim_C2 (text : List Char) (r : LabTestRecord) (h : r ∈ parse_lab_tests text)
    (hfail : r.bio_reference_range = [] ∨
      ∀ a b, splitOnHyphen r.bio_reference_range = [a, b] →
        parseDecimal a = none ∨ parseDecimal b = none) :
    r.lab_test_out_of_range = false := by
  obtain ⟨line, hline, g, hg, hbmem⟩ := mem_parse h
  obtain ⟨v0, hv0, hname, hval, hunit, hrr, hn1, hn2, hflag⟩ := mem_buildRecord hbmem
  rw [hflag, ← hrr]
  by_cases hre : r.bio_reference_range = []
  · rw [if_pos hre]
  · rw [if_neg hre]
    rcases hfail with hfail | hfail
    · exact absurd hfail hre
    · unfold rangeCheck
      split
      next a b hsp =>
        split
        next low high hla hlb =>
          rcases hfail a b hsp with hna | hnb
          · rw [hna] at hla
            cases hla
          · rw [hnb] at hlb
            cases hlb
        all_goals rfl
      all_goals rfl

/-- C10: every emitted record's value consists solely of digit and dot
characters, and its reference range is either empty or has digit-and-dot
halves on each side of exactly one hyphen. -/
theorem claim_C10 (text : List Char) (r : LabTestRecord) (h : r ∈ parse_lab_tests text) :
    (∀ c ∈ r.test_value, isDigitDot c = true) ∧
    (r.bio_reference_range = [] ∨
      ∃ a b, a ≠ [] ∧ b ≠ [] ∧ (∀ c ∈ a, isDigitDot c = true) ∧
        (∀ c ∈ b, isDigitDot c = true) ∧ r.bio_reference_range = a ++ '-' :: b) := by
  obtain ⟨line, hline, g, hg, hbmem⟩ := mem_parse h
  obtain ⟨v0, hv0, hname, hval, hunit, hrr, hn1, hn2, hflag⟩ := mem_buildRecord hbmem
  obtain ⟨hvne, hvdd⟩ := reMatch_value hg
  have hvstrip : pyStrip g.value = g.value :=
    pyStrip_eq_self_of_no_space (fun c hc => isPySpace_eq_false_of_digitDot (hvdd c hc))
  constructor
  · intro c hc
    rw [hval, hvstrip] at hc
    exact hvdd c hc
  · rcases hgr : g.rangeTok with _ | rrtok
    · left
      rw [hrr, hgr]
      rfl
    · right
      obtain ⟨rest, hsplit0, hval0, hunit0, hrange0⟩ := reMatch_some hg
      have hrg : rangeGroup (afterParen (afterUnit (restAfterValue rest))) = some rrtok := by
        rw [← hrange0, hgr]
      obtain ⟨a, b, hane, hbne, hadd, hbdd, heq⟩ := rangeGroup_some hrg
      refine ⟨a, b, hane, hbne, hadd, hbdd, ?_⟩
      rw [hrr, hgr]
      show pyStrip rrtok = a ++ '-' :: b
      rw [heq]
      refine pyStrip_eq_self_of_no_space ?_
      intro c hc
      rcases List.mem_append.mp hc with hca | hcb
      · exact isPySpace_eq_false_of_digitDot (hadd c hca)
      · rcases List.mem_cons.mp hcb with hch | hcb2
        · exact isPySpace_eq_false_of_hyphen (by rw [hch]; decide)
        · exact isPySpace_eq_false_of_digitDot (hbdd c hcb2)

/-- C3: the parser is total by construction (it is a Lean function); every
blank line, every line the pattern does not match, and every line whose value
token does not convert, contributes zero records, and the surrounding lines
are processed exactly as if the bad line were absent. -/
theorem claim_C3 (text : List Char) (pre post : List (List Char)) (bad : List Char)
    (hbad : pyStrip bad = [] ∨ reMatch (pyStrip bad) = none ∨
      ∀ g, reMatch (pyStrip bad) = some g → parseDecimal (pyStrip g.value) = none) :
    parse_lab_tests text = (splitlines text).flatMap parseLine ∧
    parseLine bad = [] ∧
    (pre ++ bad :: post).flatMap parseLine = pre.flatMap parseLine ++ post.flatMap parseLine := by
  have hbadnil : parseLine bad = [] := by
    unfold parseLine
    by_cases hst : pyStrip bad = []
    · rw [if_pos hst]
    · rw [if_neg hst]
      rcases hbad with hb | hb | hb
      · exact absurd hb hst
      · rw [hb]
      · rcases hg : reMatch (pyStrip bad) with _ | g
        · rfl
        · show buildRecord g = []
          unfold buildRecord
          by_cases hcond : pyUpper (pyStrip g.name) = [] ∨ pyStrip g.value = []
          · rw [if_pos hcond]
          · rw [if_neg hcond, hb g hg]
  refine ⟨rfl, hbadnil, ?_⟩
  rw [List.flatMap_append, List.flatMap_cons, hbadnil, List.nil_append]

/-- C4: every emitted record has a non-empty name and value, the name carries
no leading or trailing whitespace and no lowercase ASCII letter survives in
it; and a matched line whose trimmed name or value is empty yields no record
at all. -/
theorem claim_C4 :
    (∀ text r, r ∈ parse_lab_tests text →
      r.test_name ≠ [] ∧ r.test_value ≠ [] ∧
      pyStrip r.test_name = r.test_name ∧ pyUpper r.test_name = r.test_name) ∧
    (∀ line g, reMatch (pyStrip line) = some g →
      pyStrip g.name = [] ∨ pyStrip g.value = [] → parseLine line = []) := by
  constructor
  · intro text r h
    obtain ⟨line, hline, g, hg, hbmem⟩ := mem_parse h
    obtain ⟨v0, hv0, hname, hval, hunit, hrr, hn1, hn2, hflag⟩ := mem_buildRecord hbmem
    refine ⟨by rw [hname]; exact hn1, by rw [hval]; exact hn2, ?_, ?_⟩
    · rw [hname, pyStrip_pyUpper, pyStrip_pyStrip]
    · rw [hname, pyUpper_pyUpper]
  · intro line g hg hempty
    unfold parseLine
    by_cases hst : pyStrip line = []
    · rw [if_pos hst]
    · rw [if_neg hst, hg]
      show buildRecord g = []
      unfold buildRecord
      have hcond : pyUpper (pyStrip g.name) = [] ∨ pyStrip g.value = [] := by
        rcases hempty with he | he
        · exact Or.inl (by rw [he]; rfl)
        · exact Or.inr he
      rw [if_pos hcond]

/-- C7: a record is emitted only when the cleaned value token converts as a
decimal number, and a matched line whose value token does not convert is
skipped without emitting anything. -/
theorem claim_C7 :
    (∀ text r, r ∈ parse_lab_tests text → ∃ v, parseDecimal r.test_value = some v) ∧
    (∀ line g, reMatch (pyStrip line) = some g → parseDecimal (pyStrip g.value) = none →
      parseLine line = []) := by
  constructor
  · intro text r h
    obtain ⟨line, hline, g, hg, hbmem⟩ := mem_parse h
    obtain ⟨v0, hv0, hname, hval, hunit, hrr, hn1, hn2, hflag⟩ := mem_buildRecord hbmem
    refine ⟨v0, ?_⟩
    rw [hval]
    exact hv0
  · intro line g hg hnone
    unfold parseLine
    by_cases hst : pyStrip line = []
    · rw [if_pos hst]
    · rw [if_neg hst, hg]
      show buildRecord g = []
      unfold buildRecord
      by_cases hcond : pyUpper (pyStrip g.name) = [] ∨ pyStrip g.value = []
      · rw [if_pos hcond]
      · rw [if_neg hcond, hnone]

/-- C8: the documented scenario line parses to exactly one record with the
five expected field values and the flag set. -/
theorem claim_C8 :
    parse_lab_tests "HEMOGLOBIN 9.5 g/dL (13.0-17.0)".data =
      [{ test_name := "HEMOGLOBIN".data, test_value := "9.5".data,
         bio_reference_range := "13.0-17.0".data, test_unit := "g/dL".data,
         lab_test_out_of_range := true }] := by
  decide

theorem format_output_eq_self (l : List LabTestRecord) : format_output l = l := by
  induction l with
  | nil => rfl
  | cons a t ih =>
    unfold format_output at ih ⊢
    rw [List.map_cons, ih]

/-- C9: the formatter is the identity on parser output: same records, same
order, same five fields (it is total, so it cannot raise). -/
theorem claim_C9 (text : List Char) :
    format_output (parse_lab_tests text) = parse_lab_tests text :=
  format_output_eq_self (parse_lab_tests text)


/-- C5 evidence: when copying the upload raises after the temporary file was
created, the handler returns the structured failure response but the
temporary artifact is still present afterwards (the except branch of
main.py lines 139-144 has no cleanup), while the success path does delete
it. -/
theorem claim_C5_code_bug_eval :
    ((get_lab_tests [] ("t.png".data) UploadCopy.raises []).1.is_success = false ∧
      "t.png".data ∈ (get_lab_tests [] ("t.png".data) UploadCopy.raises []).2) ∧
    ((get_lab_tests [] ("t.png".data) UploadCopy.ok []).1.is_success = true ∧
      (get_lab_tests [] ("t.png".data) UploadCopy.ok []).2 = []) := by
  decide

/-- C6: the extractor returns the empty string unless every library call on
the success path (read, decode to a non-None image, grayscale, threshold,
blur, OCR) succeeds; in particular every decode failure and every engine
exception yields the empty string rather than an exception (the model is a
total function). -/
theorem claim_C6 (env : OcrEnv)
    (h : ∀ i g b d t, ¬(env.imread = Except.ok (some i) ∧ env.cvtColor i = Except.ok g ∧
      env.threshold g = Except.ok b ∧ env.medianBlur b = Except.ok d ∧
      env.image_to_string d = Except.ok t)) :
    extract_text_from_image env = [] := by
  unfold extract_text_from_image
  split
  · rfl
  · rfl
  · rename_i image hi
    split
    · rfl
    · rename_i gray hc
      split
      · rfl
      · rename_i binary ht
        split
        · rfl
        · rename_i denoised hm
          split
          · rfl
          · rename_i t hs
            exact absurd ⟨hi, hc, ht, hm, hs⟩ (h image gray binary denoised t)

/-! ### Witnesses -/

theorem claim_C1_witness :
    ((LabTestRecord.mk "HEMOGLOBIN".data "9.5".data "13.0-17.0".data "g/dL".data
        true).lab_test_out_of_range = true ↔
      (Dec.toRat (decimalVal "9.5".data) < Dec.toRat (decimalVal "13.0".data) ∨
        Dec.toRat (decimalVal "17.0".data) < Dec.toRat (decimalVal "9.5".data))) :=
  claim_C1 "HEMOGLOBIN 9.5 g/dL (13.0-17.0)".data
    (LabTestRecord.mk "HEMOGLOBIN".data "9.5".data "13.0-17.0".data "g/dL".data true)
    (by decide) "13.0".data "17.0".data (by decide)
    (decimalVal "13.0".data) (decimalVal "17.0".data) (decimalVal "9.5".data)
    (by decide) (by decide) (by decide)

theorem claim_C2_witness :
    (LabTestRecord.mk "GLUCOSE".data "90".data "1..2-3".data "mg/dL".data
      false).lab_test_out_of_range = false :=
  claim_C2 "GLUCOSE 90 mg/dL (1..2-3)".data
    (LabTestRecord.mk "GLUCOSE".data "90".data "1..2-3".data "mg/dL".data false)
    (by decide)
    (Or.inr (by
      intro a b hab
      have hc : splitOnHyphen ("1..2-3".data) = ["1..2".data, "3".data] := by decide
      rw [show (LabTestRecord.mk "GLUCOSE".data "90".data "1..2-3".data "mg/dL".data
        false).bio_reference_range = "1..2-3".data from rfl, hc] at hab
      injection hab with i1 irest
      injection irest with i2 irest2
      subst i1
      exact Or.inl (by decide)))

theorem claim_C3_witness :
    parse_lab_tests "A 5\nnonsense\nB 6 g".data =
        (splitlines "A 5\nnonsense\nB 6 g".data).flatMap parseLine ∧
    parseLine "nonsense".data = [] ∧
    (["A 5".data] ++ "nonsense".data :: ["B 6 g".data]).flatMap parseLine =
        ["A 5".data].flatMap parseLine ++ ["B 6 g".data].flatMap parseLine :=
  claim_C3 "A 5\nnonsense\nB 6 g".data ["A 5".data] ["B 6 g".data] "nonsense".data
    (Or.inr (Or.inl (by decide)))

theorem claim_C4_witness :
    ((LabTestRecord.mk "HB".data "9.5".data [] "g".data false).test_name ≠ [] ∧
      (LabTestRecord.mk "HB".data "9.5".data [] "g".data false).test_value ≠ [] ∧
      pyStrip "HB".data = "HB".data ∧ pyUpper "HB".data = "HB".data) ∧
    parseLine ": 5".data = [] :=
  ⟨claim_C4.1 "hb 9.5 g".data (LabTestRecord.mk "HB".data "9.5".data [] "g".data false)
      (by decide),
    claim_C4.2 ": 5".data (MatchGroups.mk [] "5".data none none)
      (by decide) (Or.inl (by decide))⟩

theorem claim_C6_witness :
    extract_text_from_image (OcrEnv.mk (Except.ok none) (fun i => Except.ok i)
      (fun i => Except.ok i) (fun i => Except.ok i) (fun _ => Except.ok [])) = [] :=
  claim_C6 (OcrEnv.mk (Except.ok none) (fun i => Except.ok i) (fun i => Except.ok i)
      (fun i => Except.ok i) (fun _ => Except.ok []))
    (by
      intro i g b d t hcontra
      have h1 := hcontra.1
      cases h1)

theorem claim_C7_witness :
    (∃ v, parseDecimal ("5".data) = some v) ∧ parseLine "A 1.2.3".data = [] :=
  ⟨(by
      have hmem : (LabTestRecord.mk "A".data "5".data [] [] false) ∈
          parse_lab_tests "A 5".data := by decide
      exact claim_C7.1 "A 5".data _ hmem),
    claim_C7.2 "A 1.2.3".data (MatchGroups.mk "A".data "1.2.3".data none none)
      (by decide) (by decide)⟩

theorem claim_C10_witness :
    (∀ c ∈ (LabTestRecord.mk "HEMOGLOBIN".data "9.5".data "13.0-17.0".data "g/dL".data
        true).test_value, isDigitDot c = true) ∧
    ((LabTestRecord.mk "HEMOGLOBIN".data "9.5".data "13.0-17.0".data "g/dL".data
        true).bio_reference_range = [] ∨
      ∃ a b, a ≠ [] ∧ b ≠ [] ∧ (∀ c ∈ a, isDigitDot c = true) ∧
        (∀ c ∈ b, isDigitDot c = true) ∧
        (LabTestRecord.mk "HEMOGLOBIN".data "9.5".data "13.0-17.0".data "g/dL".data
          true).bio_reference_range = a ++ '-' :: b) :=
  claim_C10 "HEMOGLOBIN 9.5 g/dL (13.0-17.0)".data
    (LabTestRecord.mk "HEMOGLOBIN".data "9.5".data "13.0-17.0".data "g/dL".data true)
    (by decide)
